import Mathlib

/-!
Verification of the imager / imager-video frame-buffer core.

This file gives a shallow embedding of the planar-image and frame-sequence
code of `src/imager/src/data.rs` and `src/imager-video/src/data.rs` and
proves or refutes the frozen claims about it.

Modelling conventions:
* Rust `u32` / `usize` values are modelled as `Nat`; every arithmetic
  operation used by the embedded code (`*`, `/`, `%`, `+`, truncating `-`)
  agrees with the Rust semantics on the ranges that occur, except that
  `usize` parsing keeps its explicit `2^64` overflow bound.
* A Rust function that can panic (`assert!`, `expect`, slice `chunks(0)`)
  is embedded as an `Option`-valued function; `none` is the panic.
* Byte buffers (`Vec<u8>`) are `List Nat`; pixel rasters are dimension
  pairs together with a total pixel function.
* Calls into libwebp are embedded per call site: results the Rust code
  only forwards are universally quantified parameters, status values the
  Rust code asserts about become guards, and the one numeric conversion a
  claim depends on is modelled from the spec (documented at the
  definition).
-/

namespace Imager

/-- A planar YUV 4:2:0 buffer, mirroring `struct Yuv420P { width, height, data }`. -/
structure Yuv420P where
  width : Nat
  height : Nat
  data : List Nat
deriving DecidableEq

/-- Size of the luma plane, mirroring `Yuv420P::luma_size`: `width * height`. -/
def Yuv420P.luma_size (p : Yuv420P) : Nat :=
  p.width * p.height

/-- Size of one chroma plane, mirroring `Yuv420P::chroma_size`: `width * height / 4`. -/
def Yuv420P.chroma_size (p : Yuv420P) : Nat :=
  p.width * p.height / 4

/-- Well-formedness check, mirroring `Yuv420P::expected_yuv420p_size`:
the buffer length is `luma_size + chroma_size + chroma_size`. -/
def Yuv420P.expected_yuv420p_size (p : Yuv420P) : Bool :=
  p.data.length == p.luma_size + p.chroma_size + p.chroma_size

/-- Embedding of Rust `slice::chunks` with chunk size `c + 1` (the Rust
call panics on chunk size `0`, which callers below turn into `none`
before calling this; the `+ 1` shift keeps the function total). -/
def chunksList (c : Nat) : List Nat → List (List Nat)
  | [] => []
  | x :: xs => (x :: xs).take (c + 1) :: chunksList c ((x :: xs).drop (c + 1))
termination_by l => l.length
decreasing_by
  simp only [List.drop_succ_cons, List.length_cons, List.length_drop]
  omega

/-- Mirrors `Yuv420P::y`: asserts the size invariant, then takes
`data[0 .. luma_size]`; `none` models the panics of `assert!` and of the
`expect` on the range lookup. -/
def Yuv420P.y (p : Yuv420P) : Option (List Nat) :=
  if p.expected_yuv420p_size then
    if p.luma_size ≤ p.data.length then some (p.data.take p.luma_size) else none
  else none

/-- Mirrors `Yuv420P::u`: asserts the size invariant, splits off the luma
plane, takes the first `chroma_size`-sized chunk and asserts its length.
`none` models the panics, including the panic of `chunks(0)` when
`chroma_size = 0`. -/
def Yuv420P.u (p : Yuv420P) : Option (List Nat) :=
  if p.expected_yuv420p_size then
    match p.chroma_size with
    | 0 => none
    | c + 1 =>
      match chunksList c (p.data.drop p.luma_size) with
      | [] => none
      | plane :: _ => if plane.length = p.chroma_size then some plane else none
  else none

/-- Mirrors `Yuv420P::v`: like `Yuv420P.u` but takes the second chunk
(`nth(1)`). -/
def Yuv420P.v (p : Yuv420P) : Option (List Nat) :=
  if p.expected_yuv420p_size then
    match p.chroma_size with
    | 0 => none
    | c + 1 =>
      match chunksList c (p.data.drop p.luma_size) with
      | [] => none
      | [_] => none
      | _ :: plane :: _ => if plane.length = p.chroma_size then some plane else none
  else none

/-- Mirrors `Yuv420P::open_yuv(path, width, height)` with the file
contents passed in place of the path (the `std::fs::read` collaborator).
The Rust function builds the buffer, runs
`assert!(result.expected_yuv420p_size())` — a panic, modelled as `none` —
and otherwise returns `Ok(result)`; the `Err` arm of its `Result` type is
dead code. -/
def Yuv420P.open_yuv (source : List Nat) (width height : Nat) :
    Option (Except Unit Yuv420P) :=
  let result : Yuv420P := { width := width, height := height, data := source }
  if result.expected_yuv420p_size then some (Except.ok result) else none

/-- A frame sequence handle, mirroring `imager`
`struct VideoBuffer { width, height, frames: Arc<Vec<Yuv420P>>, cursor }`.
The reference-counted backing store is the plain list; the strong count of
the `Arc` is passed explicitly where an operation reads it. -/
structure VideoBuffer where
  width : Nat
  height : Nat
  frames : List Yuv420P
  cursor : Nat
deriving DecidableEq

/-- Mirrors `VideoBuffer::singleton(frame)`: a one-frame sequence whose
dimensions are the dimensions of the frame, cursor at `0`. -/
def VideoBuffer.singleton (frame : Yuv420P) : VideoBuffer :=
  { width := frame.width, height := frame.height, frames := [frame], cursor := 0 }

/-- Mirrors `VideoBuffer::open_image_dir` from `imager/src/data.rs` after
the per-file decode: the argument is the list of frames produced by
`Yuv420P::open_image` on the sorted directory entries. The function
asserts non-emptiness (`none` on the panic) and takes the sequence
dimensions from frame `0`. -/
def VideoBuffer.open_image_dir (decoded : List Yuv420P) : Option VideoBuffer :=
  match decoded with
  | [] => none
  | first :: rest =>
    some { width := first.width, height := first.height,
           frames := first :: rest, cursor := 0 }

/-- Mirrors `Arc::try_unwrap`: succeeds exactly when the strong count of
the `Arc` is `1`. -/
def arcTryUnwrap (strongCount : Nat) (frames : List Yuv420P) : Option (List Yuv420P) :=
  if strongCount = 1 then some frames else none

/-- Mirrors `VideoBuffer::into_frames`. `strongCount` is the value of
`Arc::strong_count(&self.frames)`. The returned flag records which branch
ran: `false` for the move through `Arc::try_unwrap` (no copy), `true` for
the full copy through `self.frames.as_ref().clone()`; `none` models the
panic of the `expect` on a failed unwrap. -/
def VideoBuffer.into_frames (strongCount : Nat) (self : VideoBuffer) :
    Option (List Yuv420P × Bool) :=
  if strongCount = 0 then
    match arcTryUnwrap strongCount self.frames with
    | some frames => some (frames, false)
    | none => none
  else
    some (self.frames, true)

/-- Mirrors `VideoBuffer::next`: read the frame under the cursor and
advance, or return `none` leaving the buffer unchanged. -/
def VideoBuffer.next (self : VideoBuffer) : Option Yuv420P × VideoBuffer :=
  match self.frames[self.cursor]? with
  | none => (none, self)
  | some frame => (some frame, { self with cursor := self.cursor + 1 })

/-- Mirrors `VideoBuffer::set_cursor`. -/
def VideoBuffer.set_cursor (self : VideoBuffer) (cursor_pos : Nat) : VideoBuffer :=
  { self with cursor := cursor_pos }

/-- The `imager-video` variant of the frame sequence,
`struct VideoBuffer { width, height, frames: Vec<Yuv420P> }` (no cursor). -/
structure VideoBufferV where
  width : Nat
  height : Nat
  frames : List Yuv420P
deriving DecidableEq

/-- Mirrors `imager-video` `VideoBuffer::load_from_memory` after the
external demux/decode collaborator: the argument is the frame list that
`demux_decode` returned. Asserts non-emptiness and takes the dimensions
from frame `0`. -/
def VideoBufferV.load_from_memory (result : List Yuv420P) : Option VideoBufferV :=
  match result with
  | [] => none
  | first :: rest =>
    some { width := first.width, height := first.height, frames := first :: rest }

/-- Mirrors `imager-video` `VideoBuffer::open_image_dir` after the
per-file decode, exactly as `VideoBuffer.open_image_dir`. -/
def VideoBufferV.open_image_dir (decoded : List Yuv420P) : Option VideoBufferV :=
  match decoded with
  | [] => none
  | first :: rest =>
    some { width := first.width, height := first.height, frames := first :: rest }

/-- One entry of a directory listing, as seen by `open_dir_sorted_paths`:
the base name of the entry and whether it is a regular file. The path of
the entry is identified with its name. -/
structure DirEntry where
  name : String
  isFile : Bool
deriving DecidableEq

/-- Numeric value of a list of decimal digit characters,
most significant first. -/
def digitsVal (ds : List Char) : Nat :=
  ds.foldl (fun acc c => acc * 10 + (c.toNat - 48)) 0

/-- Mirrors Rust `str::parse::<usize>` on a string of ASCII digits:
fails on the empty string and on values outside the 64-bit `usize`
range. -/
def parseUsize (ds : List Char) : Option Nat :=
  if ds = [] then none
  else if digitsVal ds < 2 ^ 64 then some (digitsVal ds) else none

/-- The maximal leading run of ASCII digits of a file name, mirroring
`chars().take_while(char::is_ascii_digit)`. -/
def leadingDigits (name : String) : List Char :=
  name.toList.takeWhile fun c => c.isDigit

/-- Mirrors `open_dir_sorted_paths` (identical in both crates) on a
directory listing: keep regular files, extract the numeric index from the
maximal leading digit run of the name, drop entries whose run is empty or
does not parse, and stably sort by ascending index (`sorted_by` with
`i.cmp(j)`), returning the paths. -/
def open_dir_sorted_paths (entries : List DirEntry) : List String :=
  ((entries.filter fun e => e.isFile).filterMap fun e =>
      (parseUsize (leadingDigits e.name)).map fun i => (i, e.name))
    |>.insertionSort (fun a b => a.1 ≤ b.1)
    |>.map Prod.snd

/-- A packed RGB raster as handed to the converter (the Rust code
converts any source to RGB8 with `to_rgb8()` before importing it):
dimensions plus a total pixel function returning `(r, g, b)`. -/
structure DynamicImage where
  width : Nat
  height : Nat
  pixel : Nat → Nat → Nat × Nat × Nat

/-- Mirrors `image::GenericImage::crop(x, y, w, h)`: the requested
rectangle intersected with the image bounds, pixels read at the offset
origin. The code below only calls it with `x = y = 0` and in-bounds
`w`, `h`. -/
def DynamicImage.crop (source : DynamicImage) (x y w h : Nat) : DynamicImage :=
  { width := min w (source.width - x), height := min h (source.height - y),
    pixel := fun i j => source.pixel (x + i) (y + j) }

/-- Mirrors `ensure_even_reslution`: trim one pixel off any odd dimension
by cropping from the origin, otherwise return the image unchanged. -/
def ensure_even_reslution (source : DynamicImage) : DynamicImage :=
  let width := source.width
  let height := source.height
  let even_width : Bool := width % 2 == 0
  let even_height : Bool := height % 2 == 0
  if (!even_width) || (!even_height) then
    let new_width := if !even_width then width - 1 else width
    let new_height := if !even_height then height - 1 else height
    source.crop 0 0 new_width new_height
  else
    source

/-- Mirrors `libwebp_sys::WEBP_MAX_DIMENSION`. -/
def WEBP_MAX_DIMENSION : Nat := 16384

/-- Clamp an integer into the byte range `[0, 255]`. -/
def clamp8 (v : Int) : Nat :=
  (max 0 (min 255 v)).toNat

/-- Modelled from the spec: the per-pixel luma transform of the forward
conversion, which in the source is inside
`libwebp_sys::WebPPictureSharpARGBToYUVA` and not part of this
repository. BT.601-style integer coefficients, rounded, clamped to
`[0, 255]` (limited-range: black maps to luma 16). -/
def rgb_to_y (px : Nat × Nat × Nat) : Nat :=
  clamp8 ((66 * (px.1 : Int) + 129 * (px.2.1 : Int) + 25 * (px.2.2 : Int) + 128) / 256 + 16)

/-- Modelled from the spec: the per-pixel U chroma transform (see
`rgb_to_y`). -/
def rgb_to_u (px : Nat × Nat × Nat) : Nat :=
  clamp8 ((-38 * (px.1 : Int) - 74 * (px.2.1 : Int) + 112 * (px.2.2 : Int) + 128) / 256 + 128)

/-- Modelled from the spec: the per-pixel V chroma transform (see
`rgb_to_y`). -/
def rgb_to_v (px : Nat × Nat × Nat) : Nat :=
  clamp8 ((112 * (px.1 : Int) - 94 * (px.2.1 : Int) - 18 * (px.2.2 : Int) + 128) / 256 + 128)

/-- Modelled from the spec: chroma downsampling of one 2x2 block by the
box-filter fallback the spec allows (the source delegates the edge-aware
filter to the library). Rounded average of the four per-pixel chroma
values. -/
def chromaAvg (f : Nat × Nat × Nat → Nat) (img : DynamicImage) (cx cy : Nat) : Nat :=
  (f (img.pixel (2 * cx) (2 * cy)) + f (img.pixel (2 * cx + 1) (2 * cy)) +
      f (img.pixel (2 * cx) (2 * cy + 1)) + f (img.pixel (2 * cx + 1) (2 * cy + 1)) + 2) / 4

/-- The planar byte buffer assembled by `convert_to_yuv_using_webp`:
`[y, u, v].concat()` with the plane sizes `width * height` and
`width * height / 4` read back from the picture (the strides the source
asserts). Plane contents are the spec-modelled transforms above. -/
def yuvData (img : DynamicImage) : List Nat :=
  ((List.range (img.width * img.height)).map fun i =>
      rgb_to_y (img.pixel (i % img.width) (i / img.width)))
    ++ ((List.range (img.width * img.height / 4)).map fun i =>
      chromaAvg rgb_to_u img (i % (img.width / 2)) (i / (img.width / 2)))
    ++ ((List.range (img.width * img.height / 4)).map fun i =>
      chromaAvg rgb_to_v img (i % (img.width / 2)) (i / (img.width / 2)))

/-- Mirrors `convert_to_yuv_using_webp`: even the dimensions with
`ensure_even_reslution`, then import and convert, building the `Yuv420P`
from the evened dimensions and the three concatenated planes. `none`
models the panics: the two dimension asserts against
`WEBP_MAX_DIMENSION`, the `assert_ne!(status, 0)` on
`WebPPictureImportRGB` — libwebp validates the picture and fails the
RGB import when a dimension is not positive — and the
`assert_eq!(picture.uv_stride, width / 2)` check — libwebp allocates the
chroma planes with stride `(width + 1) / 2`, equal to `width / 2` exactly
for even widths. The buffer-size and `y_stride` asserts hold by
construction and are omitted. -/
def convert_to_yuv_using_webp (source : DynamicImage) : Option Yuv420P :=
  let source := ensure_even_reslution source
  if source.width < WEBP_MAX_DIMENSION ∧ source.height < WEBP_MAX_DIMENSION
      ∧ 0 < source.width ∧ 0 < source.height
      ∧ (source.width + 1) / 2 = source.width / 2 then
    some { width := source.width, height := source.height, data := yuvData source }
  else none

/-- Mirrors `Yuv420P::from_image`: `Ok(convert_to_yuv_using_webp(source))`. -/
def Yuv420P.from_image (source : DynamicImage) : Option (Except Unit Yuv420P) :=
  (convert_to_yuv_using_webp source).map Except.ok

/-- A packed RGBA raster as produced by `convert_to_rgba_using_webp`:
dimensions plus a total pixel function returning `(r, g, b, a)`. -/
structure RgbaImage where
  width : Nat
  height : Nat
  pixel : Nat → Nat → Nat × Nat × Nat × Nat

/-- Modelled from the spec: the per-pixel inverse transform, which in the
source is inside `libwebp_sys::WebPPictureYUVAToARGB` and not part of
this repository. Inverse of the BT.601-style matrix of `rgb_to_y`,
integer arithmetic, each channel clamped to `[0, 255]`. -/
def yuv_to_rgb (yv uv vv : Nat) : Nat × Nat × Nat :=
  let c : Int := (yv : Int) - 16
  let d : Int := (uv : Int) - 128
  let e : Int := (vv : Int) - 128
  (clamp8 ((298 * c + 409 * e + 128) / 256),
   clamp8 ((298 * c - 100 * d - 208 * e + 128) / 256),
   clamp8 ((298 * c + 516 * d + 128) / 256))

/-- Luma sample of `p` at pixel `(x, y)`, read from the data buffer per
the plane layout. -/
def Yuv420P.yVal (p : Yuv420P) (x y : Nat) : Nat :=
  p.data.getD (y * p.width + x) 0

/-- U chroma sample of `p` at chroma position `(cx, cy)` (stride
`width / 2`). -/
def Yuv420P.uVal (p : Yuv420P) (cx cy : Nat) : Nat :=
  p.data.getD (p.luma_size + (cy * (p.width / 2) + cx)) 0

/-- V chroma sample of `p` at chroma position `(cx, cy)`. -/
def Yuv420P.vVal (p : Yuv420P) (cx cy : Nat) : Nat :=
  p.data.getD (p.luma_size + p.chroma_size + (cy * (p.width / 2) + cx)) 0

/-- Modelled from the spec: the ARGB word (as its four bytes
`(a, r, g, b)`) that the library conversion leaves at pixel `(x, y)`:
alpha is fully opaque since a 4:2:0 buffer has no alpha plane, and the
color channels come from `yuv_to_rgb` with the chroma pair of the 2x2
block upsampled by nearest neighbour. -/
def webpPictureYUVAToARGB (p : Yuv420P) (x y : Nat) : Nat × Nat × Nat × Nat :=
  let rgb := yuv_to_rgb (p.yVal x y) (p.uVal (x / 2) (y / 2)) (p.vVal (x / 2) (y / 2))
  (255, rgb.1, rgb.2.1, rgb.2.2)

/-- Mirrors `libwebp_sys::WebPPictureHasTransparency` on an ARGB buffer
of the given dimensions: `true` exactly when some pixel has an alpha
byte below `255`. -/
def webpPictureHasTransparency (argb : Nat → Nat → Nat × Nat × Nat × Nat)
    (w h : Nat) : Bool :=
  (List.range h).any fun y => (List.range w).any fun x => (argb x y).1 != 255

/-- Mirrors `convert_to_rgba_using_webp`, parameterised by the ARGB
buffer `argb` the library conversion produces. The guards are the
panics of the source in `Option` form: the dimension asserts, the plane
reads `source.y()` / `source.u()` / `source.v()` (which panic on a
malformed source), and `assert_eq!(WebPPictureHasTransparency(..), 0)`.
On success the output raster reorders each ARGB word to `(r, g, b, a)`
exactly as the source builds its `Rgba` pixels. -/
def convert_to_rgba_using_webp (argb : Nat → Nat → Nat × Nat × Nat × Nat)
    (source : Yuv420P) : Option RgbaImage :=
  if source.width < WEBP_MAX_DIMENSION ∧ source.height < WEBP_MAX_DIMENSION
      ∧ source.y.isSome ∧ source.u.isSome ∧ source.v.isSome
      ∧ webpPictureHasTransparency argb source.width source.height = false then
    some { width := source.width, height := source.height,
           pixel := fun x y =>
             ((argb x y).2.1, (argb x y).2.2.1, (argb x y).2.2.2, (argb x y).1) }
  else none

/-- Mirrors `Yuv420P::to_rgba_image`: `convert_to_rgba_using_webp(self)`,
with the library ARGB buffer instantiated by the spec-modelled
conversion. -/
def Yuv420P.to_rgba_image (p : Yuv420P) : Option RgbaImage :=
  convert_to_rgba_using_webp (webpPictureYUVAToARGB p) p

/-- Mirrors imager-video `image_convert_pixels_using_webp`: the same
conversion as `convert_to_yuv_using_webp` except that it performs no
evening pass — the source dimensions are used as-is for the picture and
the result. The guards model the same panics: the dimension asserts,
the import status assert (libwebp fails the import for a non-positive
dimension), and the `uv_stride == width / 2` assert, which fails for
every odd width since libwebp allocates chroma with stride
`(width + 1) / 2`. -/
def image_convert_pixels_using_webp (source : DynamicImage) : Option Yuv420P :=
  if source.width < WEBP_MAX_DIMENSION ∧ source.height < WEBP_MAX_DIMENSION
      ∧ 0 < source.width ∧ 0 < source.height
      ∧ (source.width + 1) / 2 = source.width / 2 then
    some { width := source.width, height := source.height, data := yuvData source }
  else none

/-!
Theorems for the claims.
-/

/-- C1: `into_frames` never takes the move path. For every live handle the
`Arc` strong count is at least `1`, so the `refs == 0` test of the source
never fires and the function always returns a full copy of the backing
frame list (flag `true`), in order. The source compares against `0` where
its own `expect` message (no other refs should remain) shows the intended
test was against `1`, so the claimed move-on-sole-ownership never
happens. -/
theorem into_frames_always_copies (strongCount : Nat) (self : VideoBuffer)
    (hlive : 1 ≤ strongCount) :
    self.into_frames strongCount = some (self.frames, true) := by
  have h0 : strongCount ≠ 0 := by omega
  simp [VideoBuffer.into_frames, h0]

/-- Witness for C1: a sole handle (strong count `1`) still gets the
copying branch. -/
theorem into_frames_always_copies_witness :
    VideoBuffer.into_frames 1 ⟨2, 2, [⟨2, 2, [1, 2, 3, 4, 5, 6]⟩], 0⟩
      = some ([⟨2, 2, [1, 2, 3, 4, 5, 6]⟩], true) :=
  into_frames_always_copies 1 _ (by decide)

/-- C2 (amended): what each constructor actually guarantees. The
singleton constructor makes every stored frame match the sequence
dimensions; directory ingestion and video-bytes ingestion only copy the
dimensions of the first decoded frame into the sequence and store the
whole frame list unchecked, and all three ingestion constructors panic on
an empty frame list. -/
theorem constructor_frame_dimensions (g f : Yuv420P) (fs : List Yuv420P) :
    (∀ fr ∈ (VideoBuffer.singleton g).frames,
        fr.width = (VideoBuffer.singleton g).width ∧
        fr.height = (VideoBuffer.singleton g).height) ∧
    VideoBuffer.open_image_dir (f :: fs)
      = some { width := f.width, height := f.height, frames := f :: fs, cursor := 0 } ∧
    VideoBufferV.load_from_memory (f :: fs)
      = some { width := f.width, height := f.height, frames := f :: fs } ∧
    VideoBufferV.open_image_dir (f :: fs)
      = some { width := f.width, height := f.height, frames := f :: fs } ∧
    VideoBuffer.open_image_dir [] = none ∧
    VideoBufferV.load_from_memory [] = none ∧
    VideoBufferV.open_image_dir [] = none := by
  refine ⟨?_, rfl, rfl, rfl, rfl, rfl, rfl⟩
  intro fr hfr
  simp [VideoBuffer.singleton] at hfr
  simp [VideoBuffer.singleton, hfr]

/-- Counterexample for C2 as stated: directory ingestion of a 2x2 frame
followed by a 4x4 frame (both well-formed planar buffers, as produced by
decoding a 2x2 and a 4x4 image) yields a sequence of width 2 containing a
frame of width 4. -/
theorem constructor_frame_dimensions_counterexample :
    (VideoBuffer.open_image_dir
        [{ width := 2, height := 2, data := List.replicate 6 0 },
         { width := 4, height := 4, data := List.replicate 24 0 }]).map
      (fun buf => (buf.width, buf.height, buf.frames.map fun fr => fr.width))
      = some (2, 2, [2, 4]) := by
  decide

/-- C5 (amended): `open_yuv` accepts exactly the byte counts equal to
`width * height + 2 * (width * height / 4)`, returning `Ok` with the
supplied bytes unchanged; on any other byte count it panics
(`assert!`), it never returns a recoverable error value. -/
theorem open_yuv_size_check (source : List Nat) (width height : Nat) :
    (source.length = width * height + 2 * (width * height / 4) →
      Yuv420P.open_yuv source width height =
        some (Except.ok { width := width, height := height, data := source })) ∧
    (source.length ≠ width * height + 2 * (width * height / 4) →
      Yuv420P.open_yuv source width height = none) := by
  constructor
  · intro hlen
    simp [Yuv420P.open_yuv, Yuv420P.expected_yuv420p_size, Yuv420P.luma_size,
      Yuv420P.chroma_size, hlen]
    omega
  · intro hlen
    simp only [Yuv420P.open_yuv, Yuv420P.expected_yuv420p_size, Yuv420P.luma_size,
      Yuv420P.chroma_size]
    rw [if_neg]
    simp only [beq_iff_eq]
    omega

/-- Witness for C5: a correctly sized buffer is accepted verbatim. -/
theorem open_yuv_size_check_witness :
    Yuv420P.open_yuv [1, 2, 3, 4, 5, 6] 2 2 =
      some (Except.ok { width := 2, height := 2, data := [1, 2, 3, 4, 5, 6] }) :=
  (open_yuv_size_check [1, 2, 3, 4, 5, 6] 2 2).1 (by decide)

/-- Counterexample for C5 as stated: a wrong byte count makes `open_yuv`
panic (modelled `none`), it does not return a recoverable error value. -/
theorem open_yuv_counterexample :
    Yuv420P.open_yuv [0] 2 2 = none ∧
    ∀ e : Unit, Yuv420P.open_yuv [0] 2 2 ≠ some (Except.error e) := by
  refine ⟨rfl, ?_⟩
  intro e h
  rw [show Yuv420P.open_yuv [0] 2 2 = none from rfl] at h
  exact Option.noConfusion h

/-- C7: cursor semantics of `next` and `set_cursor`. Below the end,
`next` returns the frame under the cursor and advances by one; at or past
the end it returns nothing and leaves the buffer unchanged (terminal).
`set_cursor` accepts any position without a bounds error: after
`set_cursor p` with `p` in range the following `next` reads frame `p`,
and with `p` out of range the following `next` returns nothing. -/
theorem next_cursor_spec (buf : VideoBuffer) :
    (∀ h : buf.cursor < buf.frames.length,
        buf.next = (some (buf.frames.get ⟨buf.cursor, h⟩),
          { buf with cursor := buf.cursor + 1 })) ∧
    (buf.frames.length ≤ buf.cursor → buf.next = (none, buf)) ∧
    (∀ p, ∀ h : p < buf.frames.length,
        (buf.set_cursor p).next = (some (buf.frames.get ⟨p, h⟩),
          { buf with cursor := p + 1 })) ∧
    (∀ p, buf.frames.length ≤ p →
        (buf.set_cursor p).next = (none, buf.set_cursor p)) := by
  refine ⟨?_, ?_, ?_, ?_⟩
  · intro h
    simp [VideoBuffer.next, List.getElem?_eq_getElem h]
  · intro h
    simp [VideoBuffer.next, List.getElem?_eq_none h]
  · intro p h
    simp [VideoBuffer.next, VideoBuffer.set_cursor, List.getElem?_eq_getElem h]
  · intro p h
    simp [VideoBuffer.next, VideoBuffer.set_cursor, List.getElem?_eq_none h]

/-- Witness for C7: on a three-frame sequence, `next` reads frames 0, 1,
2 and then returns nothing, and after `set_cursor 1` the following `next`
reads frame 1 again. -/
theorem next_cursor_spec_witness :
    (VideoBuffer.next ⟨1, 1, [⟨1, 1, [10]⟩, ⟨1, 1, [11]⟩, ⟨1, 1, [12]⟩], 0⟩).1
      = some ⟨1, 1, [10]⟩ ∧
    (VideoBuffer.next ⟨1, 1, [⟨1, 1, [10]⟩, ⟨1, 1, [11]⟩, ⟨1, 1, [12]⟩], 2⟩).1
      = some ⟨1, 1, [12]⟩ ∧
    (VideoBuffer.next ⟨1, 1, [⟨1, 1, [10]⟩, ⟨1, 1, [11]⟩, ⟨1, 1, [12]⟩], 3⟩).1
      = none ∧
    (VideoBuffer.next (VideoBuffer.set_cursor
        ⟨1, 1, [⟨1, 1, [10]⟩, ⟨1, 1, [11]⟩, ⟨1, 1, [12]⟩], 3⟩ 1)).1
      = some ⟨1, 1, [11]⟩ := by
  refine ⟨?_, ?_, ?_, ?_⟩
  · rw [(next_cursor_spec _).1 (by decide)]; decide
  · rw [(next_cursor_spec _).1 (by decide)]; decide
  · rw [(next_cursor_spec _).2.1 (by decide)]
  · rw [(next_cursor_spec _).2.2.1 1 (by decide)]; decide

/-- C10: once the cursor is at or past the end of the frame list, `next`
returns nothing and returns the buffer completely unchanged, so the
failed call has no effect on the sequence state. -/
theorem next_past_end_no_change (buf : VideoBuffer)
    (h : buf.frames.length ≤ buf.cursor) :
    buf.next = (none, buf) := by
  simp [VideoBuffer.next, List.getElem?_eq_none h]

/-- Witness for C10: a one-frame sequence with the cursor at 5. -/
theorem next_past_end_no_change_witness :
    VideoBuffer.next ⟨1, 1, [⟨1, 1, [10]⟩], 5⟩
      = (none, ⟨1, 1, [⟨1, 1, [10]⟩], 5⟩) :=
  next_past_end_no_change _ (by decide)

/-- Characterisation of a successful `parseUsize`. -/
theorem parseUsize_eq_some_iff (ds : List Char) (n : Nat) :
    parseUsize ds = some n ↔ ds ≠ [] ∧ digitsVal ds < 2 ^ 64 ∧ n = digitsVal ds := by
  unfold parseUsize
  split_ifs with h1 h2 <;> simp_all [eq_comm]

/-- C3 (amended): `open_dir_sorted_paths` keeps exactly the regular files
whose maximal leading digit run is non-empty and has value below `2 ^ 64`
(the `usize` overflow bound of the index parse), and orders the kept
paths by ascending numeric index; the spec example listing sorts
numerically, not lexicographically. -/
theorem open_dir_sorted_paths_spec (entries : List DirEntry) :
    (∀ name : String,
        name ∈ open_dir_sorted_paths entries ↔
          ∃ e ∈ entries, e.isFile = true ∧ e.name = name ∧
            leadingDigits e.name ≠ [] ∧ digitsVal (leadingDigits e.name) < 2 ^ 64) ∧
    (open_dir_sorted_paths entries).Pairwise
      (fun a b => digitsVal (leadingDigits a) ≤ digitsVal (leadingDigits b)) ∧
    open_dir_sorted_paths
        [⟨"1.png", true⟩, ⟨"10.png", true⟩, ⟨"2.png", true⟩, ⟨"not_a_number.png", true⟩]
      = ["1.png", "2.png", "10.png"] := by
  haveI : IsTotal (Nat × String) (fun a b => a.1 ≤ b.1) :=
    ⟨fun a b => Nat.le_total a.1 b.1⟩
  haveI : IsTrans (Nat × String) (fun a b => a.1 ≤ b.1) :=
    ⟨fun _ _ _ => Nat.le_trans⟩
  set kept := ((entries.filter fun e => e.isFile).filterMap fun e =>
      (parseUsize (leadingDigits e.name)).map fun i => (i, e.name)) with hkept
  have hperm := List.perm_insertionSort (fun a b : Nat × String => a.1 ≤ b.1) kept
  have hsorted := List.sorted_insertionSort (fun a b : Nat × String => a.1 ≤ b.1) kept
  have hkey : ∀ p ∈ kept, p.1 = digitsVal (leadingDigits p.2) := by
    intro p hp
    rw [hkept, List.mem_filterMap] at hp
    obtain ⟨e, _, hmap⟩ := hp
    rw [Option.map_eq_some'] at hmap
    obtain ⟨i, hi, rfl⟩ := hmap
    exact ((parseUsize_eq_some_iff _ _).1 hi).2.2
  refine ⟨?_, ?_, by decide⟩
  · intro name
    unfold open_dir_sorted_paths
    rw [← hkept]
    constructor
    · intro hname
      rw [List.mem_map] at hname
      obtain ⟨p, hp, rfl⟩ := hname
      rw [hperm.mem_iff, hkept, List.mem_filterMap] at hp
      obtain ⟨e, he, hmap⟩ := hp
      rw [Option.map_eq_some'] at hmap
      obtain ⟨i, hi, rfl⟩ := hmap
      rw [List.mem_filter] at he
      have hc := (parseUsize_eq_some_iff _ _).1 hi
      exact ⟨e, he.1, he.2, rfl, hc.1, hc.2.1⟩
    · intro hname
      obtain ⟨e, he, hfile, rfl, hne, hlt⟩ := hname
      rw [List.mem_map]
      refine ⟨(digitsVal (leadingDigits e.name), e.name), ?_, rfl⟩
      rw [hperm.mem_iff, hkept, List.mem_filterMap]
      refine ⟨e, List.mem_filter.2 ⟨he, hfile⟩, ?_⟩
      rw [Option.map_eq_some']
      exact ⟨digitsVal (leadingDigits e.name),
        (parseUsize_eq_some_iff _ _).2 ⟨hne, hlt, rfl⟩, rfl⟩
  · unfold open_dir_sorted_paths
    rw [← hkept, List.pairwise_map]
    refine hsorted.imp_of_mem ?_
    intro a b ha hb hab
    rw [hkey a (hperm.subset ha), hkey b (hperm.subset hb)] at hab
    exact hab

/-- Counterexample for C3 as stated: a regular file whose name starts
with an ASCII digit, but whose leading digit run overflows `usize` (20
nines exceed `2 ^ 64 - 1`), is discarded by the listing. -/
theorem open_dir_sorted_paths_counterexample :
    leadingDigits "99999999999999999999.png" ≠ [] ∧
    open_dir_sorted_paths [⟨"99999999999999999999.png", true⟩] = [] := by
  decide

/-- On a buffer of exactly two chunks, `chunksList` returns the two
halves. -/
theorem chunksList_pair (c : Nat) (l : List Nat) (h : l.length = 2 * (c + 1)) :
    chunksList c l = [l.take (c + 1), l.drop (c + 1)] := by
  cases l with
  | nil => simp at h
  | cons x xs =>
    rw [chunksList.eq_2]
    have h2 : ((x :: xs).drop (c + 1)).length = c + 1 := by
      rw [List.length_drop]
      simp only [List.length_cons] at h ⊢
      omega
    cases hd : (x :: xs).drop (c + 1) with
    | nil => rw [hd] at h2; simp at h2
    | cons y ys =>
      rw [hd] at h2
      have hone : chunksList c (y :: ys) = [y :: ys] := by
        rw [chunksList.eq_2, List.take_of_length_le (le_of_eq h2),
          List.drop_eq_nil_of_le (le_of_eq h2), chunksList.eq_1]
      rw [hone]

/-- On a well-formed buffer with a non-empty chroma plane, the three
plane accessors succeed and return the three segments of `data`. -/
theorem plane_partition (p : Yuv420P)
    (hwf : p.expected_yuv420p_size = true) (hc : 0 < p.chroma_size) :
    p.y = some (p.data.take p.luma_size) ∧
    p.u = some ((p.data.drop p.luma_size).take p.chroma_size) ∧
    p.v = some ((p.data.drop p.luma_size).drop p.chroma_size) := by
  have hlen : p.data.length = p.luma_size + p.chroma_size + p.chroma_size := by
    simpa [Yuv420P.expected_yuv420p_size] using hwf
  obtain ⟨k, hk⟩ : ∃ k, p.chroma_size = k + 1 := ⟨p.chroma_size - 1, by omega⟩
  have hdrop : (p.data.drop p.luma_size).length = 2 * (k + 1) := by
    rw [List.length_drop]
    omega
  have hch := chunksList_pair k _ hdrop
  have htake : ((p.data.drop p.luma_size).take (k + 1)).length = k + 1 := by
    rw [List.length_take]
    omega
  have hdroplen : ((p.data.drop p.luma_size).drop (k + 1)).length = k + 1 := by
    rw [List.length_drop, List.length_drop]
    omega
  refine ⟨?_, ?_, ?_⟩
  · simp only [Yuv420P.y, hwf, if_true]
    rw [if_pos (by omega)]
  · simp only [Yuv420P.u, hwf, if_true, hk]
    rw [hch]
    simp [htake]
  · simp only [Yuv420P.v, hwf, if_true, hk]
    rw [hch]
    simp [hdroplen]
    omega

/-- C6 (amended): for every `Yuv420P` satisfying the well-formedness
predicate whose chroma plane size is positive, the plane accessors
return slices of lengths `width * height`, `width * height / 4` and
`width * height / 4` that are disjoint segments jointly covering `data`
(their concatenation, in order, is `data`). For `width * height < 4` the
chroma size is `0` and the accessors `u` and `v` panic instead
(see the counterexample). -/
theorem plane_accessors_partition (p : Yuv420P)
    (hwf : p.expected_yuv420p_size = true) (hc : 0 < p.chroma_size) :
    ∃ yl ul vl,
      p.y = some yl ∧ p.u = some ul ∧ p.v = some vl ∧
      yl.length = p.width * p.height ∧
      ul.length = p.width * p.height / 4 ∧
      vl.length = p.width * p.height / 4 ∧
      yl ++ ul ++ vl = p.data := by
  have hlen : p.data.length = p.luma_size + p.chroma_size + p.chroma_size := by
    simpa [Yuv420P.expected_yuv420p_size] using hwf
  obtain ⟨hy, hu, hv⟩ := plane_partition p hwf hc
  refine ⟨_, _, _, hy, hu, hv, ?_, ?_, ?_, ?_⟩
  · rw [List.length_take]
    simp only [Yuv420P.luma_size] at hlen ⊢
    omega
  · rw [List.length_take, List.length_drop]
    simp only [Yuv420P.luma_size, Yuv420P.chroma_size] at hlen ⊢
    omega
  · rw [List.length_drop, List.length_drop]
    simp only [Yuv420P.luma_size, Yuv420P.chroma_size] at hlen ⊢
    omega
  · rw [List.append_assoc, List.take_append_drop, List.take_append_drop]

/-- Witness for C6: a well-formed 2x2 buffer partitions into its luma
plane of length 4 and two chroma planes of length 1. -/
theorem plane_accessors_partition_witness :
    ∃ yl ul vl,
      Yuv420P.y ⟨2, 2, [1, 2, 3, 4, 5, 6]⟩ = some yl ∧
      Yuv420P.u ⟨2, 2, [1, 2, 3, 4, 5, 6]⟩ = some ul ∧
      Yuv420P.v ⟨2, 2, [1, 2, 3, 4, 5, 6]⟩ = some vl ∧
      yl.length = 2 * 2 ∧ ul.length = 2 * 2 / 4 ∧ vl.length = 2 * 2 / 4 ∧
      yl ++ ul ++ vl = [1, 2, 3, 4, 5, 6] :=
  plane_accessors_partition ⟨2, 2, [1, 2, 3, 4, 5, 6]⟩ (by decide) (by decide)

/-- Counterexample for C6 as stated: the degenerate 0x0 buffer satisfies
the well-formedness predicate, but `u` panics (Rust `chunks(0)`) instead
of returning an empty chroma plane. -/
theorem plane_accessors_counterexample :
    Yuv420P.expected_yuv420p_size ⟨0, 0, []⟩ = true ∧
    Yuv420P.u ⟨0, 0, []⟩ = none := by
  decide

/-- The evening pass crops to `width - width % 2` by `height - height % 2`
and never touches pixel values (crop from the origin). -/
theorem ensure_even_reslution_spec (source : DynamicImage) :
    (ensure_even_reslution source).width = source.width - source.width % 2 ∧
    (ensure_even_reslution source).height = source.height - source.height % 2 ∧
    ∀ x y, (ensure_even_reslution source).pixel x y = source.pixel x y := by
  unfold ensure_even_reslution
  refine ⟨?_, ?_, fun x y => ?_⟩ <;>
    by_cases hw : source.width % 2 = 0 <;> by_cases hh : source.height % 2 = 0 <;>
      simp [hw, hh, DynamicImage.crop] <;> omega

/-- C4 (amended): the `imager` converter `convert_to_yuv_using_webp`
first trims the rightmost column and/or bottommost row when odd, cropping
from the origin without scaling or padding, so for any input below the
webp dimension bound whose evened dimensions are positive the produced
`Yuv420P` has `width = input_width - input_width % 2` and
`height = input_height - input_height % 2`, and every pixel the evened
image feeds to the conversion is the pixel of the input at the same
coordinates; an input with a dimension of `0` or `1` evens to a zero
dimension and panics at the import status assert. The `imager-video`
converter `image_convert_pixels_using_webp` performs no such
normalisation: for an odd width it panics at its
`uv_stride == width / 2` assert, and for positive even widths it returns
the input dimensions unchanged. -/
theorem convert_to_yuv_dims :
    (∀ source : DynamicImage, source.width < WEBP_MAX_DIMENSION →
      source.height < WEBP_MAX_DIMENSION → 1 < source.width → 1 < source.height →
      ∃ p, convert_to_yuv_using_webp source = some p ∧
        p.width = source.width - source.width % 2 ∧
        p.height = source.height - source.height % 2 ∧
        ∀ x y, (ensure_even_reslution source).pixel x y = source.pixel x y) ∧
    (∀ source : DynamicImage, source.width ≤ 1 ∨ source.height ≤ 1 →
      convert_to_yuv_using_webp source = none) ∧
    (∀ source : DynamicImage, source.width < WEBP_MAX_DIMENSION →
      source.height < WEBP_MAX_DIMENSION → 0 < source.width →
      0 < source.height → source.width % 2 = 0 →
      ∃ p, image_convert_pixels_using_webp source = some p ∧
        p.width = source.width ∧ p.height = source.height) ∧
    (∀ source : DynamicImage, source.width % 2 = 1 →
      image_convert_pixels_using_webp source = none) := by
  refine ⟨?_, ?_, ?_, ?_⟩
  · intro source hw hh hw1 hh1
    obtain ⟨hw2, hh2, hpix⟩ := ensure_even_reslution_spec source
    unfold convert_to_yuv_using_webp
    rw [if_pos]
    · exact ⟨_, rfl, hw2, hh2, hpix⟩
    · refine ⟨by rw [hw2]; omega, by rw [hh2]; omega, by rw [hw2]; omega,
        by rw [hh2]; omega, by rw [hw2]; omega⟩
  · intro source hdeg
    obtain ⟨hw2, hh2, -⟩ := ensure_even_reslution_spec source
    unfold convert_to_yuv_using_webp
    rw [if_neg]
    intro hc
    obtain ⟨-, -, hcw, hch, -⟩ := hc
    rw [hw2] at hcw
    rw [hh2] at hch
    rcases hdeg with hd | hd <;> omega
  · intro source hw hh hw0 hh0 hweven
    unfold image_convert_pixels_using_webp
    rw [if_pos ⟨hw, hh, hw0, hh0, by omega⟩]
    exact ⟨_, rfl, rfl, rfl⟩
  · intro source hodd
    unfold image_convert_pixels_using_webp
    rw [if_neg]
    intro hc
    obtain ⟨-, -, -, -, hstride⟩ := hc
    omega

/-- Witness for C4: a 101x100 input is trimmed by the `imager` converter
to 100x100; a 1x1 input makes it panic; the `imager-video` converter
keeps a 2x2 input at 2x2 and panics on a 3x2 (odd-width) input. -/
theorem convert_to_yuv_dims_witness :
    (∃ p, convert_to_yuv_using_webp
        { width := 101, height := 100, pixel := fun _ _ => (0, 0, 0) } = some p ∧
      p.width = 100 ∧ p.height = 100) ∧
    convert_to_yuv_using_webp
      { width := 1, height := 1, pixel := fun _ _ => (0, 0, 0) } = none ∧
    (∃ p, image_convert_pixels_using_webp
        { width := 2, height := 2, pixel := fun _ _ => (0, 0, 0) } = some p ∧
      p.width = 2 ∧ p.height = 2) ∧
    image_convert_pixels_using_webp
      { width := 3, height := 2, pixel := fun _ _ => (0, 0, 0) } = none := by
  refine ⟨?_, ?_, ?_, ?_⟩
  · obtain ⟨p, hp, hpw, hph, _⟩ := convert_to_yuv_dims.1
      { width := 101, height := 100, pixel := fun _ _ => (0, 0, 0) }
      (by decide) (by decide) (by decide) (by decide)
    refine ⟨p, hp, ?_, ?_⟩
    · rw [hpw]; decide
    · rw [hph]; decide
  · exact convert_to_yuv_dims.2.1 _ (Or.inl (by decide))
  · obtain ⟨p, hp, hpw, hph⟩ := convert_to_yuv_dims.2.2.1
      { width := 2, height := 2, pixel := fun _ _ => (0, 0, 0) }
      (by decide) (by decide) (by decide) (by decide) (by decide)
    exact ⟨p, hp, hpw, hph⟩
  · exact convert_to_yuv_dims.2.2.2 _ (by decide)

/-- Counterexample for C4 as stated: the `imager-video` converter, one of
the two cited `from_packed_image` implementations, does not trim a
101-wide input to width 100 — its `uv_stride == width / 2` assert fails
for the odd width (libwebp allocates chroma with stride
`(width + 1) / 2 = 51`, not `50`) and the program panics, producing no
planar image at all. -/
theorem convert_to_yuv_dims_counterexample :
    image_convert_pixels_using_webp
      { width := 101, height := 100, pixel := fun _ _ => (0, 0, 0) } = none := by
  decide

/-- C9: whenever the planar-to-packed conversion returns an image — for
any ARGB buffer the library call could produce, and in particular for
`to_rgba_image` — every pixel of that image has alpha `255`. The source
asserts `WebPPictureHasTransparency == 0` on the converted picture before
reading it back, so no transparent pixel can survive to the output. -/
theorem to_rgba_always_opaque :
    (∀ (argb : Nat → Nat → Nat × Nat × Nat × Nat) (source : Yuv420P) (img : RgbaImage),
        convert_to_rgba_using_webp argb source = some img →
        ∀ x y, x < img.width → y < img.height → (img.pixel x y).2.2.2 = 255) ∧
    (∀ (source : Yuv420P) (img : RgbaImage),
        source.to_rgba_image = some img →
        ∀ x y, x < img.width → y < img.height → (img.pixel x y).2.2.2 = 255) := by
  have main : ∀ (argb : Nat → Nat → Nat × Nat × Nat × Nat) (source : Yuv420P)
      (img : RgbaImage), convert_to_rgba_using_webp argb source = some img →
      ∀ x y, x < img.width → y < img.height → (img.pixel x y).2.2.2 = 255 := by
    intro argb source img h x y hx hy
    unfold convert_to_rgba_using_webp at h
    split_ifs at h with hcond
    obtain ⟨-, -, -, -, -, h6⟩ := hcond
    injection h with h
    subst h
    unfold webpPictureHasTransparency at h6
    simp only [List.any_eq_false, Bool.not_eq_true, bne_iff_ne, ne_eq, not_not,
      List.mem_range] at h6
    have hx' : x < source.width := hx
    have hy' : y < source.height := hy
    simpa using h6 y hy' x hx'
  exact ⟨main, fun source img h => main _ source img h⟩

/-- Witness for C9: a concrete conversion succeeds and the checked pixel
has alpha 255. -/
theorem to_rgba_always_opaque_witness :
    ∃ img, convert_to_rgba_using_webp (fun _ _ => (255, 7, 8, 9))
        ⟨2, 2, [1, 2, 3, 4, 5, 6]⟩ = some img ∧
      (img.pixel 0 0).2.2.2 = 255 := by
  have h : convert_to_rgba_using_webp (fun _ _ => (255, 7, 8, 9))
      ⟨2, 2, [1, 2, 3, 4, 5, 6]⟩
      = some ⟨2, 2, fun _ _ => (7, 8, 9, 255)⟩ := by
    unfold convert_to_rgba_using_webp
    rw [if_pos]
    have hparts := plane_partition ⟨2, 2, [1, 2, 3, 4, 5, 6]⟩ (by decide) (by decide)
    exact ⟨by decide, by decide, by rw [hparts.1]; rfl,
      by rw [hparts.2.1]; rfl, by rw [hparts.2.2]; rfl, by decide⟩
  exact ⟨_, h, to_rgba_always_opaque.1 _ _ _ h 0 0 (by decide) (by decide)⟩

/-- Mapping a constant-valued function over a range gives a replicate. -/
theorem map_range_const {n : Nat} {f : Nat → Nat} {a : Nat} (h : ∀ i, f i = a) :
    (List.range n).map f = List.replicate n a := by
  apply List.eq_replicate_iff.2
  constructor
  · simp
  · intro b hb
    rw [List.mem_map] at hb
    obtain ⟨i, _, rfl⟩ := hb
    exact h i

/-- Row-major index of an in-bounds position is below the plane size. -/
theorem block_index_lt {a b cx cy : Nat} (hcx : cx < a) (hcy : cy < b) :
    cy * a + cx < a * b := by
  calc cy * a + cx < (cy + 1) * a := by
        rw [Nat.add_mul, Nat.one_mul]
        omega
    _ ≤ b * a := Nat.mul_le_mul_right a (by omega)
    _ = a * b := Nat.mul_comm b a

/-- Lookup in a luma plane followed by two equal-sized chroma planes. -/
theorem getD_concat_replicate (l c v1 v2 v3 : Nat) (i : Nat) (d : Nat) :
    (List.replicate l v1 ++ (List.replicate c v2 ++ List.replicate c v3)).getD i d
      = if i < l then v1
        else if i < l + c then v2
        else if i < l + c + c then v3
        else d := by
  rw [List.getD_eq_getElem?_getD]
  by_cases h1 : i < l
  · rw [List.getElem?_append_left (by simpa using h1), List.getElem?_replicate,
      if_pos h1]
    simp [h1]
  · rw [List.getElem?_append_right (by simp; omega)]
    simp only [List.length_replicate]
    by_cases h2 : i < l + c
    · rw [List.getElem?_append_left (by simp; omega), List.getElem?_replicate,
        if_pos (by omega)]
      simp [h1, h2]
    · rw [List.getElem?_append_right (by simp; omega), List.getElem?_replicate]
      simp only [List.length_replicate]
      by_cases h3 : i < l + c + c
      · rw [if_pos (by omega)]
        simp only [Option.getD_some]
        rw [if_neg h1, if_neg h2, if_pos h3]
      · rw [if_neg (by omega)]
        simp only [Option.getD_none]
        rw [if_neg h1, if_neg h2, if_neg h3]

/-- The BT.601-style luma of pure black is 16 (limited-range). -/
theorem rgb_to_y_zero : rgb_to_y (0, 0, 0) = 16 := by decide

/-- The BT.601-style U chroma of pure black is the neutral 128. -/
theorem rgb_to_u_zero : rgb_to_u (0, 0, 0) = 128 := by decide

/-- The BT.601-style V chroma of pure black is the neutral 128. -/
theorem rgb_to_v_zero : rgb_to_v (0, 0, 0) = 128 := by decide

/-- Downsampled U chroma of an all-zero block is the neutral 128. -/
theorem chromaAvg_u_zero (w h cx cy : Nat) :
    chromaAvg rgb_to_u ⟨w, h, fun _ _ => (0, 0, 0)⟩ cx cy = 128 := by
  unfold chromaAvg
  show (rgb_to_u (0, 0, 0) + rgb_to_u (0, 0, 0) + rgb_to_u (0, 0, 0) +
    rgb_to_u (0, 0, 0) + 2) / 4 = 128
  rw [rgb_to_u_zero]

/-- Downsampled V chroma of an all-zero block is the neutral 128. -/
theorem chromaAvg_v_zero (w h cx cy : Nat) :
    chromaAvg rgb_to_v ⟨w, h, fun _ _ => (0, 0, 0)⟩ cx cy = 128 := by
  unfold chromaAvg
  show (rgb_to_v (0, 0, 0) + rgb_to_v (0, 0, 0) + rgb_to_v (0, 0, 0) +
    rgb_to_v (0, 0, 0) + 2) / 4 = 128
  rw [rgb_to_v_zero]

/-- The forward conversion of an all-zero (black) image produces constant
planes: luma 16 everywhere, both chroma planes 128 everywhere. -/
theorem yuvData_zero (w h : Nat) :
    yuvData ⟨w, h, fun _ _ => (0, 0, 0)⟩
      = List.replicate (w * h) 16 ++
        (List.replicate (w * h / 4) 128 ++ List.replicate (w * h / 4) 128) := by
  unfold yuvData
  rw [map_range_const (fun i => rgb_to_y_zero)]
  rw [map_range_const (fun i => chromaAvg_u_zero w h _ _)]
  rw [map_range_const (fun i => chromaAvg_v_zero w h _ _)]
  rw [List.append_assoc]

/-- C8 (amended): for every positive even width and height below the webp
dimension bound, converting the all-zero (black) packed image to planar
and back yields an image of the same dimensions whose every pixel is
black and fully opaque, `(0, 0, 0, 255)`. Dimension zero is excluded:
libwebp rejects the import of a zero-sized picture, so the forward
conversion already panics at its status assert (see the
counterexample). -/
theorem zero_image_roundtrip (w h : Nat)
    (hw2 : w % 2 = 0) (hh2 : h % 2 = 0) (hw0 : 0 < w) (hh0 : 0 < h)
    (hwmax : w < WEBP_MAX_DIMENSION) (hhmax : h < WEBP_MAX_DIMENSION) :
    ∃ img,
      (convert_to_yuv_using_webp ⟨w, h, fun _ _ => (0, 0, 0)⟩).bind
          Yuv420P.to_rgba_image = some img ∧
      img.width = w ∧ img.height = h ∧
      ∀ x y, x < w → y < h → img.pixel x y = (0, 0, 0, 255) := by
  obtain ⟨a, ha⟩ : ∃ a, w = 2 * a := ⟨w / 2, by omega⟩
  obtain ⟨b, hb⟩ : ∃ b, h = 2 * b := ⟨h / 2, by omega⟩
  have hwa : w / 2 = a := by omega
  have hc4 : w * h / 4 = a * b := by
    rw [ha, hb, show 2 * a * (2 * b) = 4 * (a * b) by ring]
    exact Nat.mul_div_cancel_left _ (by norm_num)
  have heven : ensure_even_reslution ⟨w, h, fun _ _ => (0, 0, 0)⟩
      = ⟨w, h, fun _ _ => (0, 0, 0)⟩ := by
    unfold ensure_even_reslution
    simp [hw2, hh2]
  have hconv : convert_to_yuv_using_webp ⟨w, h, fun _ _ => (0, 0, 0)⟩
      = some ⟨w, h, yuvData ⟨w, h, fun _ _ => (0, 0, 0)⟩⟩ := by
    unfold convert_to_yuv_using_webp
    rw [heven]
    rw [if_pos ⟨hwmax, hhmax, hw0, hh0, by show (w + 1) / 2 = w / 2; omega⟩]
  have hdata := yuvData_zero w h
  have hlen : (yuvData ⟨w, h, fun _ _ => (0, 0, 0)⟩).length
      = w * h + w * h / 4 + w * h / 4 := by
    rw [hdata]
    simp only [List.length_append, List.length_replicate]
    omega
  have hwf : (⟨w, h, yuvData ⟨w, h, fun _ _ => (0, 0, 0)⟩⟩ : Yuv420P).expected_yuv420p_size
      = true := by
    simp only [Yuv420P.expected_yuv420p_size, Yuv420P.luma_size, Yuv420P.chroma_size,
      beq_iff_eq]
    exact hlen
  have hcpos : 0 < (⟨w, h, yuvData ⟨w, h, fun _ _ => (0, 0, 0)⟩⟩ : Yuv420P).chroma_size := by
    show 0 < w * h / 4
    rw [hc4]
    exact Nat.mul_pos (by omega) (by omega)
  obtain ⟨hy, hu, hv⟩ := plane_partition _ hwf hcpos
  have hyval : ∀ x y, x < w → y < h →
      (⟨w, h, yuvData ⟨w, h, fun _ _ => (0, 0, 0)⟩⟩ : Yuv420P).yVal x y = 16 := by
    intro x y hx hyy
    unfold Yuv420P.yVal
    show (yuvData ⟨w, h, fun _ _ => (0, 0, 0)⟩).getD (y * w + x) 0 = 16
    rw [hdata, getD_concat_replicate, if_pos (block_index_lt hx hyy)]
  have huval : ∀ x y, x < w → y < h →
      (⟨w, h, yuvData ⟨w, h, fun _ _ => (0, 0, 0)⟩⟩ : Yuv420P).uVal (x / 2) (y / 2)
        = 128 := by
    intro x y hx hyy
    unfold Yuv420P.uVal
    show (yuvData ⟨w, h, fun _ _ => (0, 0, 0)⟩).getD
      (w * h + (y / 2 * (w / 2) + x / 2)) 0 = 128
    have hcx : x / 2 < a := by omega
    have hcy : y / 2 < b := by omega
    have hpos : y / 2 * (w / 2) + x / 2 < a * b := by
      rw [hwa]
      exact block_index_lt hcx hcy
    rw [hdata, getD_concat_replicate, if_neg (by omega), if_pos (by omega)]
  have hvval : ∀ x y, x < w → y < h →
      (⟨w, h, yuvData ⟨w, h, fun _ _ => (0, 0, 0)⟩⟩ : Yuv420P).vVal (x / 2) (y / 2)
        = 128 := by
    intro x y hx hyy
    unfold Yuv420P.vVal
    show (yuvData ⟨w, h, fun _ _ => (0, 0, 0)⟩).getD
      (w * h + w * h / 4 + (y / 2 * (w / 2) + x / 2)) 0 = 128
    have hcx : x / 2 < a := by omega
    have hcy : y / 2 < b := by omega
    have hpos : y / 2 * (w / 2) + x / 2 < a * b := by
      rw [hwa]
      exact block_index_lt hcx hcy
    rw [hdata, getD_concat_replicate, if_neg (by omega), if_neg (by omega),
      if_pos (by omega)]
  have hargb : ∀ x y, x < w → y < h →
      webpPictureYUVAToARGB ⟨w, h, yuvData ⟨w, h, fun _ _ => (0, 0, 0)⟩⟩ x y
        = (255, 0, 0, 0) := by
    intro x y hx hyy
    unfold webpPictureYUVAToARGB
    rw [hyval x y hx hyy, huval x y hx hyy, hvval x y hx hyy]
    decide
  have htrans : webpPictureHasTransparency
      (webpPictureYUVAToARGB ⟨w, h, yuvData ⟨w, h, fun _ _ => (0, 0, 0)⟩⟩) w h
      = false := by
    unfold webpPictureHasTransparency
    rw [List.any_eq_false]
    intro yy hyy
    rw [Bool.not_eq_true, List.any_eq_false]
    intro xx hxx
    rw [Bool.not_eq_true]
    have hfst : (webpPictureYUVAToARGB
        ⟨w, h, yuvData ⟨w, h, fun _ _ => (0, 0, 0)⟩⟩ xx yy).1 = 255 := rfl
    rw [hfst]
    decide
  have hguard : (⟨w, h, yuvData ⟨w, h, fun _ _ => (0, 0, 0)⟩⟩ : Yuv420P).width
        < WEBP_MAX_DIMENSION ∧
      (⟨w, h, yuvData ⟨w, h, fun _ _ => (0, 0, 0)⟩⟩ : Yuv420P).height
        < WEBP_MAX_DIMENSION ∧
      (⟨w, h, yuvData ⟨w, h, fun _ _ => (0, 0, 0)⟩⟩ : Yuv420P).y.isSome = true ∧
      (⟨w, h, yuvData ⟨w, h, fun _ _ => (0, 0, 0)⟩⟩ : Yuv420P).u.isSome = true ∧
      (⟨w, h, yuvData ⟨w, h, fun _ _ => (0, 0, 0)⟩⟩ : Yuv420P).v.isSome = true ∧
      webpPictureHasTransparency
        (webpPictureYUVAToARGB ⟨w, h, yuvData ⟨w, h, fun _ _ => (0, 0, 0)⟩⟩)
        (⟨w, h, yuvData ⟨w, h, fun _ _ => (0, 0, 0)⟩⟩ : Yuv420P).width
        (⟨w, h, yuvData ⟨w, h, fun _ _ => (0, 0, 0)⟩⟩ : Yuv420P).height = false :=
    ⟨hwmax, hhmax, by rw [hy]; rfl, by rw [hu]; rfl, by rw [hv]; rfl, htrans⟩
  rw [hconv]
  simp only [Option.some_bind]
  unfold Yuv420P.to_rgba_image convert_to_rgba_using_webp
  rw [if_pos hguard]
  refine ⟨_, rfl, rfl, rfl, ?_⟩
  intro x y hx hyy
  show ((webpPictureYUVAToARGB ⟨w, h, yuvData ⟨w, h, fun _ _ => (0, 0, 0)⟩⟩ x y).2.1,
    (webpPictureYUVAToARGB ⟨w, h, yuvData ⟨w, h, fun _ _ => (0, 0, 0)⟩⟩ x y).2.2.1,
    (webpPictureYUVAToARGB ⟨w, h, yuvData ⟨w, h, fun _ _ => (0, 0, 0)⟩⟩ x y).2.2.2,
    (webpPictureYUVAToARGB ⟨w, h, yuvData ⟨w, h, fun _ _ => (0, 0, 0)⟩⟩ x y).1)
    = ((0 : Nat), (0 : Nat), (0 : Nat), (255 : Nat))
  rw [hargb x y hx hyy]

/-- Witness for C8: the 2x2 all-zero image round-trips to a 2x2 black,
fully opaque image. -/
theorem zero_image_roundtrip_witness :
    (2 % 2 = 0) ∧
    ∃ img,
      (convert_to_yuv_using_webp ⟨2, 2, fun _ _ => (0, 0, 0)⟩).bind
          Yuv420P.to_rgba_image = some img ∧
      img.width = 2 ∧ img.height = 2 ∧
      ∀ x y, x < 2 → y < 2 → img.pixel x y = (0, 0, 0, 255) :=
  ⟨rfl, zero_image_roundtrip 2 2 (by decide) (by decide) (by decide) (by decide)
    (by decide) (by decide)⟩

/-- Counterexample for C8 as stated: width and height `0` are even, yet
the round trip panics — libwebp fails `WebPPictureImportRGB` for a
zero-sized picture, tripping the forward conversion status assert — so no
output image exists for this even size. -/
theorem zero_image_roundtrip_counterexample :
    (0 % 2 = 0) ∧
    ((convert_to_yuv_using_webp ⟨0, 0, fun _ _ => (0, 0, 0)⟩).bind
        Yuv420P.to_rgba_image).isSome = false := by
  exact ⟨rfl, by decide⟩

end Imager
